import Mathlib

/-!
Shallow embedding of the minimal sidechain state machine from
`src/main.rs` of the `minimal-sidechain` repository.

Machine integers (`u64`, `usize`) are modelled as `Nat`; every `u64`
arithmetic operation performed by the code is made explicit with
`% U64MOD` (Rust release-mode wrapping semantics; in debug builds the
same overflow aborts, which a shallow embedding cannot distinguish from
wrapping, so the defined wrapping behaviour is modelled).

The `sdk` crate (digests, `Header`, `MainState`, `DepositInput`,
`RefundInput`, `Deposit`, `Withdrawal`) is external to the repository;
its data shapes are modelled from the spec where needed, and the three
hash functions (`Header::hash`, `Transaction::hash`, `String::hash`)
are passed explicitly as an abstract `HashCtx`, treating the digest
primitive as the black box the spec declares it to be.
-/

/-- The `u64` modulus, `2 ^ 64`. -/
def U64MOD : Nat := 18446744073709551616

/-- Wrapping `u64` addition, as performed by Rust `+` / `Iterator::sum` on `u64`. -/
def wadd (a b : Nat) : Nat := (a + b) % U64MOD

/-- Wrapping `u64` subtraction, as performed by Rust `-` on `u64` operands
(both operands are `u64` values, hence `< U64MOD`). -/
def wsub (a b : Nat) : Nat := (a + U64MOD - b) % U64MOD

/-- Model of `iter().map(|x| x.amount).sum::<u64>()`: left fold of wrapping addition. -/
def sumAmounts (l : List Nat) : Nat := l.foldl wadd 0

/-- `struct Output { amount: u64, address: MinimalAddress }`.
The 32-byte `MinimalAddress` is modelled as a `Nat`. -/
structure Output where
  amount : Nat
  address : Nat
deriving DecidableEq

/-- `enum Outpoint { Coinbase { block_hash, n }, Regular { txid, n } }`.
`Uint256` digests are modelled as `Nat`. -/
inductive Outpoint where
  | coinbase (block_hash : Nat) (n : Nat)
  | regular (txid : Nat) (n : Nat)
deriving DecidableEq

/-- `struct MinimalInput { outpoint: Outpoint, signature: String }`. -/
structure MinimalInput where
  outpoint : Outpoint
  signature : String
deriving DecidableEq

/-- Modelled from the spec: `DepositInput` lives in the external `sdk` crate;
per the spec a deposit claim carries the main-chain reference key (opaque,
modelled as `Nat`) and a signature. -/
structure DepositInput where
  outpoint : Nat
  signature : String
deriving DecidableEq

/-- Modelled from the spec: `RefundInput` lives in the external `sdk` crate;
a refund claim carries the main-chain reference key of the failed
withdrawal and a signature. -/
structure RefundInput where
  outpoint : Nat
  signature : String
deriving DecidableEq

/-- Modelled from the spec: `Deposit { amount, address }` from the `sdk` crate
(`amount()` / `address()` accessors become field projections). -/
structure Deposit where
  amount : Nat
  address : Nat
deriving DecidableEq

/-- Modelled from the spec: `Withdrawal { amount, address }` from the `sdk` crate. -/
structure Withdrawal where
  amount : Nat
  address : Nat
deriving DecidableEq

/-- `struct Transaction` with its five field groups. -/
structure Transaction where
  deposit_inputs : List DepositInput
  refund_inputs : List RefundInput
  inputs : List MinimalInput
  withdrawals : List Withdrawal
  outputs : List Output
deriving DecidableEq

/-- `struct MinimalBody { coinbase: Vec<Output>, transactions: Vec<Transaction> }`. -/
structure MinimalBody where
  coinbase : List Output
  transactions : List Transaction
deriving DecidableEq

/-- Modelled from the spec: headers are opaque here; only `header.hash()` is
ever used by this subsystem, so a header is an abstract value. -/
abbrev MinimalHeader := Nat

/-- Modelled from the spec: the digest primitive is an external black box
(`sdk::Sha256Hash`); the three hash functions the code calls are passed
explicitly. -/
structure HashCtx where
  headerHash : MinimalHeader → Nat
  txHash : Transaction → Nat
  sigHash : String → Nat

/-- `MinimalAddress::check_signature`: `signature.hash() == self.0`. -/
def check_signature (ctx : HashCtx) (address : Nat) (signature : String) : Bool :=
  ctx.sigHash signature == address

/-- Modelled from the spec: the main-chain oracle resolves deposit and
withdrawal references, returning `none` when absent/unknown. -/
structure MainState where
  deposits : Nat → Option Deposit
  withdrawals : Nat → Option Withdrawal

/-- `MainState::get_deposit`. -/
def MainState.get_deposit (m : MainState) (r : Nat) : Option Deposit := m.deposits r

/-- `MainState::get_withdrawal`. -/
def MainState.get_withdrawal (m : MainState) (r : Nat) : Option Withdrawal := m.withdrawals r

/-- Helper for `enumerate()`-style keying: pairs each output of the list with
`mk n` for consecutive indices starting at `n`. -/
def keyedOutputs (mk : Nat → Outpoint) : Nat → List Output → List (Outpoint × Output)
  | _, [] => []
  | n, o :: rest => (mk n, o) :: keyedOutputs mk (n + 1) rest

/-- The sequence of (outpoint, output) pairs `MinimalBody::outputs` feeds into
its `HashMap`: coinbase outputs keyed `Coinbase { hash(header), n }`, then each
transaction's outputs keyed `Regular { txid: hash(tx), n }`, in body order. -/
def MinimalBody.outputsList (body : MinimalBody) (ctx : HashCtx) (header : MinimalHeader) :
    List (Outpoint × Output) :=
  keyedOutputs (Outpoint.coinbase (ctx.headerHash header)) 0 body.coinbase ++
    body.transactions.flatMap fun tx =>
      keyedOutputs (Outpoint.regular (ctx.txHash tx)) 0 tx.outputs

/-- One `HashMap` insertion: a later value overwrites an earlier one under the
same key, a fresh key is appended. -/
def insertKV (m : List (Outpoint × Output)) (kv : Outpoint × Output) :
    List (Outpoint × Output) :=
  if m.any fun p => p.1 == kv.1 then
    m.map fun p => if p.1 == kv.1 then (p.1, kv.2) else p
  else m ++ [kv]

/-- `MinimalBody::outputs`: the `HashMap<Outpoint, Output>` built by extending
an empty map with the coinbase pairs then the regular pairs, modelled as an
insertion-ordered association list with overwrite-on-duplicate-key. -/
def MinimalBody.outputs (body : MinimalBody) (ctx : HashCtx) (header : MinimalHeader) :
    List (Outpoint × Output) :=
  (body.outputsList ctx header).foldl insertKV []

/-- `MinimalBody::inputs`: flatten every transaction's `inputs` in order. -/
def MinimalBody.inputs (body : MinimalBody) : List MinimalInput :=
  body.transactions.flatMap fun tx => tx.inputs

/-- `Body::deposit_inputs` impl for `MinimalBody`. -/
def MinimalBody.deposit_inputs (body : MinimalBody) : List DepositInput :=
  body.transactions.flatMap fun tx => tx.deposit_inputs

/-- `Body::refund_inputs` impl for `MinimalBody`. -/
def MinimalBody.refund_inputs (body : MinimalBody) : List RefundInput :=
  body.transactions.flatMap fun tx => tx.refund_inputs

/-- `Body::withdrawals` impl for `MinimalBody`. -/
def MinimalBody.withdrawals (body : MinimalBody) : List Withdrawal :=
  body.transactions.flatMap fun tx => tx.withdrawals

/-- Rust's `collect::<Option<Vec<_>>>()`: `some` of the list of payloads when
every element is `some`, otherwise `none`. -/
def collectSome : List (Option α) → Option (List α)
  | [] => some []
  | none :: _ => none
  | some a :: rest => (collectSome rest).map fun l => a :: l

/-- `struct MinimalState { utxos: HashSet<Outpoint>, outputs: HashMap<Outpoint, Output> }`;
the set becomes a `Finset`, the map its lookup function. -/
structure MinimalState where
  utxos : Finset Outpoint
  outputs : Outpoint → Option Output

/-- Local `all_signatures_valid` of `validate_block`: every resolved
(input, output) pair in each of the three categories passes
`check_signature` against the resolved address. -/
def all_signatures_valid (ctx : HashCtx) (inputs : List MinimalInput) (spent : List Output)
    (dins : List DepositInput) (deps : List Deposit)
    (rins : List RefundInput) (refs : List Withdrawal) : Bool :=
  ((inputs.zip spent).all fun p => check_signature ctx p.2.address p.1.signature) &&
  ((dins.zip deps).all fun p => check_signature ctx p.2.address p.1.signature) &&
  ((rins.zip refs).all fun p => check_signature ctx p.2.address p.1.signature)

/-- Local `total_input_amount` of `validate_block`: wrapping `u64` sum of the
spent-output, claimed-deposit and refunded-withdrawal amounts. -/
def total_input_amount (spent : List Output) (deps : List Deposit)
    (refs : List Withdrawal) : Nat :=
  wadd (wadd (sumAmounts (spent.map Output.amount)) (sumAmounts (deps.map Deposit.amount)))
    (sumAmounts (refs.map Withdrawal.amount))

/-- Local `total_output_amount` of `validate_block`: wrapping `u64` sum of the
amounts of `body.outputs(header).values()` plus the withdrawal amounts. -/
def total_output_amount (body : MinimalBody) (ctx : HashCtx) (header : MinimalHeader) : Nat :=
  wadd (sumAmounts ((body.outputs ctx header).map fun p => p.2.amount))
    (sumAmounts (body.withdrawals.map Withdrawal.amount))

/-- Local `total_coinbase_amount` of `validate_block`: wrapping `u64` sum of
the coinbase output amounts. -/
def total_coinbase_amount (body : MinimalBody) : Nat :=
  sumAmounts (body.coinbase.map Output.amount)

/-- `MinimalState::validate_block`, step for step: resolve the three input
categories (any failure returns `false`), check every signature against the
resolved address (any failure returns `false`), then require the coinbase
total to equal the wrapping `u64` difference of the output and input totals. -/
def MinimalState.validate_block (s : MinimalState) (main_state : MainState) (ctx : HashCtx)
    (header : MinimalHeader) (body : MinimalBody) : Bool :=
  match collectSome (body.inputs.map fun i => s.outputs i.outpoint),
      collectSome (body.deposit_inputs.map fun i => main_state.get_deposit i.outpoint),
      collectSome (body.refund_inputs.map fun i => main_state.get_withdrawal i.outpoint) with
  | some spent_outputs, some claimed_deposits, some refunded_withdrawals =>
    if !all_signatures_valid ctx body.inputs spent_outputs body.deposit_inputs claimed_deposits
        body.refund_inputs refunded_withdrawals then false
    else if total_coinbase_amount body !=
        wsub (total_output_amount body ctx header)
          (total_input_amount spent_outputs claimed_deposits refunded_withdrawals) then false
    else true
  | _, _, _ => false

/-- `MinimalState::connect`, with the mutation of `self` modelled by returning
the new state: remove every spent outpoint from `utxos`, then extend `utxos`
with the keys of the body's outputs map and `outputs` with its entries
(a new entry overwrites an old one at the same key). -/
def MinimalState.connect (s : MinimalState) (ctx : HashCtx) (header : MinimalHeader)
    (body : MinimalBody) : MinimalState :=
  let afterSpend := body.inputs.foldl (fun u i => u.erase i.outpoint) s.utxos
  let outs := body.outputs ctx header
  { utxos := outs.foldl (fun u p => insert p.1 u) afterSpend,
    outputs := fun k =>
      match outs.find? fun p => p.1 == k with
      | some p => some p.2
      | none => s.outputs k }

/-- `MinimalState::disconnect`: re-add every spent outpoint to `utxos`, then
remove every outpoint the block created; the `outputs` map is not touched. -/
def MinimalState.disconnect (s : MinimalState) (ctx : HashCtx) (header : MinimalHeader)
    (body : MinimalBody) : MinimalState :=
  let afterUnspend := body.inputs.foldl (fun u i => insert i.outpoint u) s.utxos
  let outs := body.outputs ctx header
  { s with utxos := outs.foldl (fun u p => u.erase p.1) afterUnspend }

/-- `connect`'s actual Rust signature returns `Result<(), Self::Error>`;
the source ends in `Ok(())` unconditionally. -/
def MinimalState.connectE (s : MinimalState) (ctx : HashCtx) (header : MinimalHeader)
    (body : MinimalBody) : Except Unit MinimalState :=
  Except.ok (s.connect ctx header body)

/-- `disconnect`'s actual Rust signature returns `Result<(), Self::Error>`;
the source ends in `Ok(())` unconditionally. -/
def MinimalState.disconnectE (s : MinimalState) (ctx : HashCtx) (header : MinimalHeader)
    (body : MinimalBody) : Except Unit MinimalState :=
  Except.ok (s.disconnect ctx header body)

/-! Concrete instances used by counterexamples and witnesses. -/

/-- Hash context whose three hash functions are constantly `0`; with all
addresses `0` every signature verifies. -/
def ctx0 : HashCtx := ⟨fun _ => 0, fun _ => 0, fun _ => 0⟩

/-- Oracle that resolves nothing. -/
def oracle0 : MainState := ⟨fun _ => none, fun _ => none⟩

/-- Empty ledger state. -/
def state0 : MinimalState := ⟨∅, fun _ => none⟩

/-- Three unspent-output records of amounts `2^63`, `2^63` and `7`, whose `u64`
amount total wraps to `7`. -/
def wrapState : MinimalState :=
  ⟨{Outpoint.regular 1 0, Outpoint.regular 2 0, Outpoint.regular 3 0},
    fun k =>
      if k = Outpoint.regular 1 0 then some ⟨9223372036854775808, 0⟩
      else if k = Outpoint.regular 2 0 then some ⟨9223372036854775808, 0⟩
      else if k = Outpoint.regular 3 0 then some ⟨7, 0⟩
      else none⟩

/-- Transaction spending the three `wrapState` outputs (total `2^64 + 7`) and
creating a single output of `7`. -/
def wrapTx : Transaction :=
  ⟨[], [], [⟨Outpoint.regular 1 0, "s"⟩, ⟨Outpoint.regular 2 0, "s"⟩,
    ⟨Outpoint.regular 3 0, "s"⟩], [], [⟨7, 0⟩]⟩

/-- Block containing `wrapTx` and a coinbase output of `2^64 - 1`. -/
def wrapBody : MinimalBody := ⟨[⟨18446744073709551615, 0⟩], [wrapTx]⟩


/-- Ledger state holding one 100-unit output under outpoint `Regular{5, 0}`. -/
def dsState : MinimalState :=
  ⟨{Outpoint.regular 5 0}, fun k => if k = Outpoint.regular 5 0 then some ⟨100, 0⟩ else none⟩

/-- Block spending the same 100-unit outpoint twice and creating a 200-unit
output (a same-block double spend). -/
def dsBody : MinimalBody :=
  ⟨[], [⟨[], [], [⟨Outpoint.regular 5 0, "s"⟩, ⟨Outpoint.regular 5 0, "s"⟩], [], [⟨200, 0⟩]⟩]⟩


/-! Helper lemmas. -/

theorem foldl_wadd_eq (l : List Nat) (a : Nat) :
    l.foldl wadd (a % U64MOD) = (a + l.sum) % U64MOD := by
  induction l generalizing a with
  | nil => simp
  | cons x t ih =>
    have h1 : wadd (a % U64MOD) x = (a + x) % U64MOD := by
      simp [wadd, Nat.mod_add_mod]
    simp only [List.foldl_cons, h1]
    rw [ih (a + x), List.sum_cons]
    congr 1
    ring

theorem sumAmounts_eq (l : List Nat) : sumAmounts l = l.sum % U64MOD := by
  have h0 : (0 : Nat) = 0 % U64MOD := by decide
  simpa [sumAmounts] using foldl_wadd_eq l 0

theorem sumAmounts_lt (l : List Nat) : sumAmounts l < U64MOD := by
  rw [sumAmounts_eq]
  exact Nat.mod_lt _ (by decide)

theorem collectSome_map_eq_none {α β : Type} (f : α → Option β) (l : List α)
    (h : ∃ x ∈ l, f x = none) : collectSome (l.map f) = none := by
  induction l with
  | nil => simp at h
  | cons a t ih =>
    rcases h with ⟨x, hx, hfx⟩
    rcases List.mem_cons.mp hx with rfl | hx'
    · simp [collectSome, hfx]
    · cases hfa : f a with
      | none => simp [collectSome, hfa]
      | some b =>
        simp only [List.map_cons, hfa, collectSome, ih ⟨x, hx', hfx⟩]
        rfl

theorem collectSome_length {α : Type} {l : List (Option α)} {r : List α}
    (h : collectSome l = some r) : r.length = l.length := by
  induction l generalizing r with
  | nil => simp [collectSome] at h; simp [← h]
  | cons a t ih =>
    cases a with
    | none => simp [collectSome] at h
    | some b =>
      simp only [collectSome, Option.map_eq_some'] at h
      rcases h with ⟨r', hr', rfl⟩
      simp [ih hr']

theorem keyedOutputs_map_fst (mk : Nat → Outpoint) (n : Nat) (l : List Output) :
    (keyedOutputs mk n l).map Prod.fst = (List.range' n l.length).map mk := by
  induction l generalizing n with
  | nil => simp [keyedOutputs]
  | cons o t ih => simp [keyedOutputs, List.range'_succ, ih]

theorem keyedOutputs_map_snd (mk : Nat → Outpoint) (n : Nat) (l : List Output) :
    (keyedOutputs mk n l).map Prod.snd = l := by
  induction l generalizing n with
  | nil => rfl
  | cons o t ih => simp [keyedOutputs, ih]

theorem keyedOutputs_length (mk : Nat → Outpoint) (n : Nat) (l : List Output) :
    (keyedOutputs mk n l).length = l.length := by
  induction l generalizing n with
  | nil => rfl
  | cons o t ih => simp [keyedOutputs, ih]

theorem insertKV_of_not_mem (m : List (Outpoint × Output)) (kv : Outpoint × Output)
    (h : kv.1 ∉ m.map Prod.fst) : insertKV m kv = m ++ [kv] := by
  have hany : (m.any fun p => p.1 == kv.1) = false := by
    simp only [List.any_eq_false, beq_iff_eq]
    intro p hp he
    exact h (he ▸ List.mem_map_of_mem Prod.fst hp)
  simp [insertKV, hany]

theorem foldl_insertKV_eq (l : List (Outpoint × Output)) :
    ∀ acc, (l.map Prod.fst).Nodup →
      (∀ k ∈ acc.map Prod.fst, k ∉ l.map Prod.fst) →
      l.foldl insertKV acc = acc ++ l := by
  induction l with
  | nil =>
    intro acc _ _
    rw [List.foldl_nil, List.append_nil]
  | cons kv t ih =>
    intro acc hl hdisj
    have hl' : (t.map Prod.fst).Nodup := by
      simp only [List.map_cons, List.nodup_cons] at hl
      exact hl.2
    have hhead : kv.1 ∉ t.map Prod.fst := by
      simp only [List.map_cons, List.nodup_cons] at hl
      exact hl.1
    have hk : kv.1 ∉ acc.map Prod.fst := by
      intro hmem
      exact hdisj kv.1 hmem (by simp)
    have hdisj' : ∀ k ∈ (acc ++ [kv]).map Prod.fst, k ∉ t.map Prod.fst := by
      intro k hkmem
      simp only [List.map_append, List.mem_append, List.map_cons, List.map_nil,
        List.mem_singleton] at hkmem
      rcases hkmem with hkmem | rfl
      · intro hkt
        exact hdisj k hkmem (by simp [hkt])
      · exact hhead
    rw [List.foldl_cons, insertKV_of_not_mem acc kv hk, ih (acc ++ [kv]) hl' hdisj']
    simp

theorem outputsList_keys_nodup (body : MinimalBody) (ctx : HashCtx) (header : MinimalHeader)
    (hn : (body.transactions.map ctx.txHash).Nodup) :
    ((body.outputsList ctx header).map Prod.fst).Nodup := by
  unfold MinimalBody.outputsList
  rw [List.map_append, List.nodup_append]
  refine ⟨?_, ?_, ?_⟩
  · rw [keyedOutputs_map_fst]
    refine List.Nodup.map ?_ (List.nodup_range' _ _)
    intro a b hab
    simpa using hab
  · rw [List.map_flatMap, List.nodup_flatMap]
    constructor
    · intro tx _
      rw [keyedOutputs_map_fst]
      refine List.Nodup.map ?_ (List.nodup_range' _ _)
      intro a b hab
      simpa using hab
    · have hpw : body.transactions.Pairwise fun t1 t2 => ctx.txHash t1 ≠ ctx.txHash t2 := by
        have := hn
        rw [List.Nodup, List.pairwise_map] at this
        exact this
      refine hpw.imp ?_
      intro t1 t2 hne
      simp only [Function.onFun, List.Disjoint]
      intro x hx1 hx2
      rw [keyedOutputs_map_fst, List.mem_map] at hx1 hx2
      rcases hx1 with ⟨i, _, rfl⟩
      rcases hx2 with ⟨j, _, hj⟩
      have hinj : ctx.txHash t2 = ctx.txHash t1 ∧ j = i := by
        simpa [Outpoint.regular.injEq] using hj
      exact hne hinj.1.symm
  · intro x hx
    rw [keyedOutputs_map_fst, List.mem_map] at hx
    rcases hx with ⟨i, _, rfl⟩
    intro hmem
    rw [List.map_flatMap, List.mem_flatMap] at hmem
    rcases hmem with ⟨tx, _, hmem⟩
    rw [keyedOutputs_map_fst, List.mem_map] at hmem
    rcases hmem with ⟨j, _, hj⟩
    exact Outpoint.noConfusion hj

theorem outputs_eq_outputsList (body : MinimalBody) (ctx : HashCtx) (header : MinimalHeader)
    (hn : (body.transactions.map ctx.txHash).Nodup) :
    body.outputs ctx header = body.outputsList ctx header := by
  unfold MinimalBody.outputs
  have hkeys := outputsList_keys_nodup body ctx header hn
  simpa using foldl_insertKV_eq (body.outputsList ctx header) [] hkeys (by simp)

theorem keyedOutputs_amounts (mk : Nat → Outpoint) (n : Nat) (l : List Output) :
    (keyedOutputs mk n l).map (fun p => p.2.amount) = l.map Output.amount := by
  induction l generalizing n with
  | nil => rfl
  | cons o t ih => simp [keyedOutputs, ih]

theorem outputsList_amounts (body : MinimalBody) (ctx : HashCtx) (header : MinimalHeader) :
    (body.outputsList ctx header).map (fun p => p.2.amount) =
      (body.coinbase ++ body.transactions.flatMap fun tx => tx.outputs).map Output.amount := by
  unfold MinimalBody.outputsList
  rw [List.map_append, List.map_append, keyedOutputs_amounts, List.map_flatMap,
    List.map_flatMap]
  exact congrArg _ (congrArg _ (funext fun tx => keyedOutputs_amounts _ 0 tx.outputs))

theorem outputsList_length (body : MinimalBody) (ctx : HashCtx) (header : MinimalHeader) :
    (body.outputsList ctx header).length =
      body.coinbase.length + (body.transactions.map fun tx => tx.outputs.length).sum := by
  unfold MinimalBody.outputsList
  rw [List.length_append, keyedOutputs_length, List.length_flatMap]
  congr 1
  refine congrArg List.sum ?_
  refine congrArg (fun f => List.map f body.transactions) ?_
  funext tx
  simp [keyedOutputs_length]

theorem validate_block_resolved (s : MinimalState) (M : MainState) (ctx : HashCtx)
    (header : MinimalHeader) (body : MinimalBody)
    (so : List Output) (cd : List Deposit) (rw : List Withdrawal)
    (hso : collectSome (body.inputs.map fun i => s.outputs i.outpoint) = some so)
    (hcd : collectSome (body.deposit_inputs.map fun i => M.get_deposit i.outpoint) = some cd)
    (hrw : collectSome (body.refund_inputs.map fun i => M.get_withdrawal i.outpoint) = some rw) :
    s.validate_block M ctx header body =
      (all_signatures_valid ctx body.inputs so body.deposit_inputs cd body.refund_inputs rw &&
        (total_coinbase_amount body ==
          wsub (total_output_amount body ctx header) (total_input_amount so cd rw))) := by
  unfold MinimalState.validate_block
  rw [hso, hcd, hrw]
  cases hsig : all_signatures_valid ctx body.inputs so body.deposit_inputs cd
      body.refund_inputs rw with
  | false => simp [hsig]
  | true =>
    simp only [hsig, Bool.not_true, Bool.false_eq_true, if_false, Bool.true_and, bne]
    by_cases hc : total_coinbase_amount body =
        wsub (total_output_amount body ctx header) (total_input_amount so cd rw)
    · simp [hc]
    · simp [hc]

theorem wsub_mod_iff (c i o : Nat) :
    (c % U64MOD = wsub (o % U64MOD) (i % U64MOD)) ↔ (c + i) % U64MOD = o % U64MOD := by
  unfold wsub U64MOD
  omega

theorem mem_erase_fold (l : List MinimalInput) :
    ∀ (u : Finset Outpoint) (x : Outpoint),
      (x ∈ l.foldl (fun u i => u.erase i.outpoint) u ↔
        x ∈ u ∧ ∀ i ∈ l, x ≠ i.outpoint) := by
  induction l with
  | nil => intro u x; simp
  | cons a t ih =>
    intro u x
    rw [List.foldl_cons, ih]
    simp only [Finset.mem_erase, List.mem_cons]
    constructor
    · rintro ⟨⟨hne, hu⟩, hall⟩
      refine ⟨hu, ?_⟩
      intro i hi
      rcases hi with rfl | hi
      · exact hne
      · exact hall i hi
    · rintro ⟨hu, hall⟩
      exact ⟨⟨hall a (Or.inl rfl), hu⟩, fun i hi => hall i (Or.inr hi)⟩

theorem mem_insert_fold (l : List MinimalInput) :
    ∀ (u : Finset Outpoint) (x : Outpoint),
      (x ∈ l.foldl (fun u i => insert i.outpoint u) u ↔
        x ∈ u ∨ ∃ i ∈ l, x = i.outpoint) := by
  induction l with
  | nil => intro u x; simp
  | cons a t ih =>
    intro u x
    rw [List.foldl_cons, ih]
    simp only [Finset.mem_insert, List.mem_cons]
    constructor
    · rintro (⟨h | hu⟩ | ⟨i, hi, hx⟩)
      · exact Or.inr ⟨a, Or.inl rfl, h⟩
      · exact Or.inl hu
      · exact Or.inr ⟨i, Or.inr hi, hx⟩
    · rintro (hu | ⟨i, rfl | hi, hx⟩)
      · exact Or.inl (Or.inr hu)
      · exact Or.inl (Or.inl hx)
      · exact Or.inr ⟨i, hi, hx⟩

theorem mem_insert_fold_pairs (l : List (Outpoint × Output)) :
    ∀ (u : Finset Outpoint) (x : Outpoint),
      (x ∈ l.foldl (fun u p => insert p.1 u) u ↔ x ∈ u ∨ ∃ p ∈ l, x = p.1) := by
  induction l with
  | nil => intro u x; simp
  | cons a t ih =>
    intro u x
    rw [List.foldl_cons, ih]
    simp only [Finset.mem_insert, List.mem_cons]
    constructor
    · rintro (⟨h | hu⟩ | ⟨p, hp, hx⟩)
      · exact Or.inr ⟨a, Or.inl rfl, h⟩
      · exact Or.inl hu
      · exact Or.inr ⟨p, Or.inr hp, hx⟩
    · rintro (hu | ⟨p, rfl | hp, hx⟩)
      · exact Or.inl (Or.inr hu)
      · exact Or.inl (Or.inl hx)
      · exact Or.inr ⟨p, hp, hx⟩

theorem mem_erase_fold_pairs (l : List (Outpoint × Output)) :
    ∀ (u : Finset Outpoint) (x : Outpoint),
      (x ∈ l.foldl (fun u p => u.erase p.1) u ↔ x ∈ u ∧ ∀ p ∈ l, x ≠ p.1) := by
  induction l with
  | nil => intro u x; simp
  | cons a t ih =>
    intro u x
    rw [List.foldl_cons, ih]
    simp only [Finset.mem_erase, List.mem_cons]
    constructor
    · rintro ⟨⟨hne, hu⟩, hall⟩
      refine ⟨hu, ?_⟩
      intro p hp
      rcases hp with rfl | hp
      · exact hne
      · exact hall p hp
    · rintro ⟨hu, hall⟩
      exact ⟨⟨hall a (Or.inl rfl), hu⟩, fun p hp => hall p (Or.inr hp)⟩

/-- Spec-side total input amount, following the spec's words: the plain
(unbounded) sum of the spent-output amounts, the claimed-deposit amounts and
the refunded-withdrawal amounts. -/
def specTotalInput (spent : List Output) (deps : List Deposit) (refs : List Withdrawal) : Nat :=
  (spent.map Output.amount).sum + (deps.map Deposit.amount).sum +
    (refs.map Withdrawal.amount).sum

/-- Spec-side total output amount, following the spec's words: the plain
(unbounded) sum of all newly created output amounts (coinbase included) plus
all new withdrawal amounts. -/
def specTotalOutput (body : MinimalBody) : Nat :=
  (body.coinbase.map Output.amount).sum +
    (((body.transactions.flatMap fun tx => tx.outputs).map Output.amount).sum +
      (body.withdrawals.map Withdrawal.amount).sum)

/-- Spec-side total coinbase amount: the plain sum of the coinbase output amounts. -/
def specTotalCoinbase (body : MinimalBody) : Nat :=
  (body.coinbase.map Output.amount).sum

/-! Claim theorems. -/

/-- C9: for every ledger state, hash context, header and body, `connect` and
`disconnect` both return `Ok(())`; the error variant of their `Result` is
never produced. -/
theorem connectE_disconnectE_ok (s : MinimalState) (ctx : HashCtx) (header : MinimalHeader)
    (body : MinimalBody) :
    (s.connectE ctx header body).isOk = true ∧ (s.disconnectE ctx header body).isOk = true :=
  ⟨rfl, rfl⟩

/-- C4: any block containing an input whose outpoint is absent from the output
index, or a deposit-input or refund-input the oracle does not resolve, is
rejected by `validate_block`, regardless of every other field. -/
theorem validate_missing_reference_rejects (s : MinimalState) (M : MainState) (ctx : HashCtx)
    (header : MinimalHeader) (body : MinimalBody)
    (h : (∃ i ∈ body.inputs, s.outputs i.outpoint = none) ∨
         (∃ i ∈ body.deposit_inputs, M.get_deposit i.outpoint = none) ∨
         (∃ i ∈ body.refund_inputs, M.get_withdrawal i.outpoint = none)) :
    s.validate_block M ctx header body = false := by
  unfold MinimalState.validate_block
  rcases h with h | h | h
  · rw [collectSome_map_eq_none _ _ h]
  · rw [collectSome_map_eq_none _ _ h]
    cases collectSome (body.inputs.map fun i => s.outputs i.outpoint) <;> rfl
  · rw [collectSome_map_eq_none _ _ h]
    cases collectSome (body.inputs.map fun i => s.outputs i.outpoint) <;>
      cases collectSome (body.deposit_inputs.map fun i => M.get_deposit i.outpoint) <;> rfl

/-- Body with a single input referencing outpoint `Regular{9, 0}`, which no
state below carries. -/
def missBody : MinimalBody := ⟨[], [⟨[], [], [⟨Outpoint.regular 9 0, "s"⟩], [], []⟩]⟩

/-- Witness for C4 at a concrete input. -/
theorem validate_missing_reference_rejects_witness :
    (∃ i ∈ missBody.inputs, state0.outputs i.outpoint = none) ∧
      state0.validate_block oracle0 ctx0 0 missBody = false :=
  ⟨by decide,
    validate_missing_reference_rejects state0 oracle0 ctx0 0 missBody (Or.inl (by decide))⟩

/-- C5: a block in which all references resolve but at least one resolved pair
(regular spend, deposit claim or refund claim) fails signature verification is
rejected by `validate_block`. -/
theorem validate_bad_signature_rejects (s : MinimalState) (M : MainState) (ctx : HashCtx)
    (header : MinimalHeader) (body : MinimalBody)
    (so : List Output) (cd : List Deposit) (rfnd : List Withdrawal)
    (hso : collectSome (body.inputs.map fun i => s.outputs i.outpoint) = some so)
    (hcd : collectSome (body.deposit_inputs.map fun i => M.get_deposit i.outpoint) = some cd)
    (hrw : collectSome (body.refund_inputs.map fun i => M.get_withdrawal i.outpoint) = some rfnd)
    (hbad : (∃ p ∈ body.inputs.zip so, check_signature ctx p.2.address p.1.signature = false) ∨
        (∃ p ∈ body.deposit_inputs.zip cd,
          check_signature ctx p.2.address p.1.signature = false) ∨
        (∃ p ∈ body.refund_inputs.zip rfnd,
          check_signature ctx p.2.address p.1.signature = false)) :
    s.validate_block M ctx header body = false := by
  rw [validate_block_resolved s M ctx header body so cd rfnd hso hcd hrw]
  have hsig : all_signatures_valid ctx body.inputs so body.deposit_inputs cd
      body.refund_inputs rfnd = false := by
    unfold all_signatures_valid
    rcases hbad with ⟨p, hp, hchk⟩ | ⟨p, hp, hchk⟩ | ⟨p, hp, hchk⟩
    · have hall : ((body.inputs.zip so).all fun p =>
          check_signature ctx p.2.address p.1.signature) = false := by
        cases hq : (body.inputs.zip so).all fun p =>
            check_signature ctx p.2.address p.1.signature
        · rfl
        · have := List.all_eq_true.mp hq p hp
          rw [hchk] at this
          exact absurd this (by simp)
      simp [hall]
    · have hall : ((body.deposit_inputs.zip cd).all fun p =>
          check_signature ctx p.2.address p.1.signature) = false := by
        cases hq : (body.deposit_inputs.zip cd).all fun p =>
            check_signature ctx p.2.address p.1.signature
        · rfl
        · have := List.all_eq_true.mp hq p hp
          rw [hchk] at this
          exact absurd this (by simp)
      simp [hall]
    · have hall : ((body.refund_inputs.zip rfnd).all fun p =>
          check_signature ctx p.2.address p.1.signature) = false := by
        cases hq : (body.refund_inputs.zip rfnd).all fun p =>
            check_signature ctx p.2.address p.1.signature
        · rfl
        · have := List.all_eq_true.mp hq p hp
          rw [hchk] at this
          exact absurd this (by simp)
      simp [hall]
  rw [hsig]
  rfl

/-- Ledger state holding one 100-unit output locked to address `1` under
outpoint `Regular{6, 0}`; with `ctx0`'s signature hash every supplied
signature hashes to `0`, so no signature can satisfy address `1`. -/
def badSigState : MinimalState :=
  ⟨{Outpoint.regular 6 0}, fun k => if k = Outpoint.regular 6 0 then some ⟨100, 1⟩ else none⟩

/-- Body spending the `badSigState` output with a signature that does not verify. -/
def badSigBody : MinimalBody :=
  ⟨[], [⟨[], [], [⟨Outpoint.regular 6 0, "s"⟩], [], [⟨100, 1⟩]⟩]⟩

/-- Witness for C5 at a concrete input. -/
theorem validate_bad_signature_rejects_witness :
    collectSome (badSigBody.inputs.map fun i => badSigState.outputs i.outpoint) =
        some [⟨100, 1⟩] ∧
      (∃ p ∈ badSigBody.inputs.zip [(⟨100, 1⟩ : Output)],
        check_signature ctx0 p.2.address p.1.signature = false) ∧
      badSigState.validate_block oracle0 ctx0 0 badSigBody = false :=
  ⟨by decide, by decide,
    validate_bad_signature_rejects badSigState oracle0 ctx0 0 badSigBody [⟨100, 1⟩] [] []
      (by decide) (by decide) (by decide) (Or.inl (by decide))⟩

/-- C6 (amended): a block whose body contains no transactions is accepted by
`validate_block` for every coinbase, every ledger state and every oracle: the
conservation check degenerates to comparing the coinbase total with itself,
because the coinbase outputs are themselves part of the output total and the
input total is zero. -/
theorem validate_empty_transactions_always_true (s : MinimalState) (M : MainState)
    (ctx : HashCtx) (header : MinimalHeader) (coinbase : List Output) :
    s.validate_block M ctx header ⟨coinbase, []⟩ = true := by
  have h1 := validate_block_resolved s M ctx header ⟨coinbase, []⟩ [] [] [] rfl rfl rfl
  rw [h1]
  have hsig : all_signatures_valid ctx (MinimalBody.inputs ⟨coinbase, []⟩) []
      (MinimalBody.deposit_inputs ⟨coinbase, []⟩) []
      (MinimalBody.refund_inputs ⟨coinbase, []⟩) [] = true := rfl
  rw [hsig, Bool.true_and, beq_iff_eq]
  have hout : total_output_amount ⟨coinbase, []⟩ ctx header =
      sumAmounts (coinbase.map Output.amount) % U64MOD := by
    unfold total_output_amount
    rw [outputs_eq_outputsList _ _ _ (by simp), outputsList_amounts]
    have h2 : (MinimalBody.withdrawals ⟨coinbase, []⟩) = [] := rfl
    rw [h2]
    have h3 : ((⟨coinbase, []⟩ : MinimalBody).coinbase ++
        (⟨coinbase, []⟩ : MinimalBody).transactions.flatMap fun tx => tx.outputs) =
        coinbase := by simp
    rw [h3]
    show wadd (sumAmounts (coinbase.map Output.amount)) (sumAmounts []) = _
    have h4 : sumAmounts [] = 0 := rfl
    rw [h4]
    unfold wadd
    rw [Nat.add_zero]
  have hin : total_input_amount [] [] [] = 0 := by decide
  have h5 : total_coinbase_amount ⟨coinbase, []⟩ = sumAmounts (coinbase.map Output.amount) :=
    rfl
  rw [hout, hin, h5]
  unfold wsub
  have hlt := sumAmounts_lt (coinbase.map Output.amount)
  unfold U64MOD at hlt ⊢
  omega

/-- C6 (counterexample): an empty-transactions block with a coinbase total of
`50` (nonzero) is accepted, so acceptance is not equivalent to the coinbase
summing to zero. -/
theorem validate_empty_nonzero_coinbase_accepted :
    state0.validate_block oracle0 ctx0 0 ⟨[⟨50, 0⟩], []⟩ = true ∧
      total_coinbase_amount ⟨[⟨50, 0⟩], []⟩ ≠ 0 := by decide

/-- Resolved spent outputs of `wrapBody` against `wrapState`. -/
def wrapSpent : List Output := [⟨9223372036854775808, 0⟩, ⟨9223372036854775808, 0⟩, ⟨7, 0⟩]

/-- C2: a block whose (wrapped) `total_output_amount` is strictly smaller than
its (wrapped) `total_input_amount`, with all references resolved and all
signatures valid, on which `validate_block` nevertheless returns `true`: the
unsigned subtraction wraps modulo `2^64` instead of rejecting, contradicting
the spec's demand that underflow be guarded and such blocks be rejected. -/
theorem validate_underflow_wrap_accepts :
    collectSome (wrapBody.inputs.map fun i => wrapState.outputs i.outpoint) = some wrapSpent ∧
      all_signatures_valid ctx0 wrapBody.inputs wrapSpent wrapBody.deposit_inputs []
        wrapBody.refund_inputs [] = true ∧
      total_output_amount wrapBody ctx0 0 < total_input_amount wrapSpent [] [] ∧
      wrapState.validate_block oracle0 ctx0 0 wrapBody = true := by decide

/-- C7: a block spending the same outpoint twice (`dsBody`) is accepted by
`validate_block`: no uniqueness check over the flattened input list exists,
contradicting the spec's requirement that same-block double spends be
rejected. -/
theorem validate_double_spend_accepted :
    ¬ (dsBody.inputs.map MinimalInput.outpoint).Nodup ∧
      dsState.validate_block oracle0 ctx0 0 dsBody = true := by decide

/-- C10: the amount totals are computed by wrapping 64-bit addition: on
`wrapBody` the spent amounts sum to `2^64 + 7 ≥ 2^64`, the computed
`total_input_amount` is the wrapped value `7`, the block is accepted, and the
conservation equation over unbounded integers fails — it is evaluated over the
wrapped values. -/
theorem validate_wrapped_totals_example :
    9223372036854775808 + 9223372036854775808 + 7 ≥ U64MOD ∧
      sumAmounts (wrapSpent.map Output.amount) =
        (9223372036854775808 + 9223372036854775808 + 7) % U64MOD ∧
      total_input_amount wrapSpent [] [] ≠ 9223372036854775808 + 9223372036854775808 + 7 ∧
      wrapState.validate_block oracle0 ctx0 0 wrapBody = true ∧
      (specTotalCoinbase wrapBody : Int) ≠
        (specTotalOutput wrapBody : Int) - (specTotalInput wrapSpent [] [] : Int) := by decide

/-- C8 (amended): for every body whose transactions have pairwise-distinct
hashes, the Body Projection outputs map has exactly one entry per coinbase
output and one per transaction output: its size is the number of coinbase
outputs plus the total number of transaction outputs. -/
theorem outputs_map_length_of_nodup (ctx : HashCtx) (header : MinimalHeader)
    (body : MinimalBody) (hhash : (body.transactions.map ctx.txHash).Nodup) :
    (body.outputs ctx header).length =
      body.coinbase.length + (body.transactions.map fun tx => tx.outputs.length).sum := by
  rw [outputs_eq_outputsList _ _ _ hhash, outputsList_length]

/-- Transaction with a single 1-unit output, used twice in a body to collide
its digest with itself. -/
def dupTx : Transaction := ⟨[], [], [], [], [⟨1, 0⟩]⟩

/-- Witness for C8 (amended) at a concrete input. -/
theorem outputs_map_length_of_nodup_witness :
    ((⟨[⟨1, 0⟩], [dupTx]⟩ : MinimalBody).transactions.map ctx0.txHash).Nodup ∧
      (MinimalBody.outputs ⟨[⟨1, 0⟩], [dupTx]⟩ ctx0 0).length =
        (⟨[⟨1, 0⟩], [dupTx]⟩ : MinimalBody).coinbase.length +
          ((⟨[⟨1, 0⟩], [dupTx]⟩ : MinimalBody).transactions.map fun tx =>
            tx.outputs.length).sum :=
  ⟨by decide, outputs_map_length_of_nodup ctx0 0 ⟨[⟨1, 0⟩], [dupTx]⟩ (by decide)⟩

/-- C8 (counterexample): a body containing the same transaction twice produces
identical `Regular` keys, the map entries merge, and the map size is `1`, not
the claimed `0 + 2`. -/
theorem outputs_map_merges_duplicate_tx :
    (MinimalBody.outputs ⟨[], [dupTx, dupTx]⟩ ctx0 0).length ≠
      (⟨[], [dupTx, dupTx]⟩ : MinimalBody).coinbase.length +
        ((⟨[], [dupTx, dupTx]⟩ : MinimalBody).transactions.map fun tx =>
          tx.outputs.length).sum := by decide

/-- C3 (amended): for a validly connectable block, `disconnect` after `connect`
restores the unspent set exactly, but the output index equals its prior value
extended with the block's created outputs — spent/created output records are
retained, not removed. -/
theorem connect_disconnect_roundtrip (s : MinimalState) (ctx : HashCtx)
    (header : MinimalHeader) (body : MinimalBody)
    (hin : ∀ i ∈ body.inputs, i.outpoint ∈ s.utxos ∧ (s.outputs i.outpoint).isSome)
    (hout : ∀ p ∈ body.outputs ctx header, p.1 ∉ s.utxos ∧ s.outputs p.1 = none) :
    ((s.connect ctx header body).disconnect ctx header body).utxos = s.utxos ∧
      ((s.connect ctx header body).disconnect ctx header body).outputs = fun k =>
        match (body.outputs ctx header).find? fun p => p.1 == k with
        | some p => some p.2
        | none => s.outputs k := by
  constructor
  · ext x
    show x ∈ (body.outputs ctx header).foldl (fun u p => u.erase p.1)
        (body.inputs.foldl (fun u i => insert i.outpoint u)
          ((body.outputs ctx header).foldl (fun u p => insert p.1 u)
            (body.inputs.foldl (fun u i => u.erase i.outpoint) s.utxos))) ↔ x ∈ s.utxos
    rw [mem_erase_fold_pairs, mem_insert_fold, mem_insert_fold_pairs, mem_erase_fold]
    constructor
    · rintro ⟨hmem, hnout⟩
      rcases hmem with (⟨hs, _⟩ | ⟨p, hp, rfl⟩) | ⟨i, hi, rfl⟩
      · exact hs
      · exact absurd rfl (hnout p hp)
      · exact (hin i hi).1
    · intro hs
      have hnout : ∀ p ∈ body.outputs ctx header, x ≠ p.1 := fun p hp heq =>
        (hout p hp).1 (heq ▸ hs)
      refine ⟨?_, hnout⟩
      by_cases hspent : ∃ i ∈ body.inputs, x = i.outpoint
      · exact Or.inr hspent
      · push_neg at hspent
        exact Or.inl (Or.inl ⟨hs, hspent⟩)
  · rfl

/-- Empty-transactions body with one 5-unit coinbase output. -/
def cbBody : MinimalBody := ⟨[⟨5, 0⟩], []⟩

/-- C3 (counterexample): starting from the empty state, `cbBody` is validly
connectable, yet connect-then-disconnect does not restore the output index —
the created coinbase output record is retained. -/
theorem connect_disconnect_index_not_restored :
    (∀ i ∈ cbBody.inputs, i.outpoint ∈ state0.utxos ∧ (state0.outputs i.outpoint).isSome) ∧
      (∀ p ∈ cbBody.outputs ctx0 0, p.1 ∉ state0.utxos ∧ state0.outputs p.1 = none) ∧
      ¬ ((state0.connect ctx0 0 cbBody).disconnect ctx0 0 cbBody).outputs =
          state0.outputs := by
  refine ⟨by decide, by decide, ?_⟩
  intro h
  have h0 := congrFun h (Outpoint.coinbase 0 0)
  have h1 : ((state0.connect ctx0 0 cbBody).disconnect ctx0 0 cbBody).outputs
      (Outpoint.coinbase 0 0) = some ⟨5, 0⟩ := by decide
  have h2 : state0.outputs (Outpoint.coinbase 0 0) = none := rfl
  rw [h1, h2] at h0
  exact Option.noConfusion h0

/-- Body spending the `dsState` 100-unit output once and recreating 100 units. -/
def spendBody : MinimalBody :=
  ⟨[], [⟨[], [], [⟨Outpoint.regular 5 0, "s"⟩], [], [⟨100, 0⟩]⟩]⟩

/-- Witness for C3 (amended) at a concrete input: a genuine spend-and-create
block whose connect-then-disconnect restores the unspent set. -/
theorem connect_disconnect_roundtrip_witness :
    (∀ i ∈ spendBody.inputs, i.outpoint ∈ dsState.utxos ∧
        (dsState.outputs i.outpoint).isSome) ∧
      (∀ p ∈ spendBody.outputs ctx0 0, p.1 ∉ dsState.utxos ∧ dsState.outputs p.1 = none) ∧
      ((dsState.connect ctx0 0 spendBody).disconnect ctx0 0 spendBody).utxos =
        dsState.utxos :=
  ⟨by decide, by decide,
    (connect_disconnect_roundtrip dsState ctx0 0 spendBody (by decide) (by decide)).1⟩

/-- C1 (amended): when all references resolve, all signatures verify and the
body's transactions have pairwise-distinct hashes, `validate_block` accepts
exactly when the coinbase total equals the total output amount (all newly
created outputs, coinbase included, plus withdrawals) minus the total input
amount (spent outputs plus claimed deposits plus claimed refunds), with the
equation read modulo `2^64` (the `u64` wrapping arithmetic the code uses):
coinbase + inputs ≡ outputs (mod `2^64`). -/
theorem validate_conservation_mod_iff (s : MinimalState) (M : MainState) (ctx : HashCtx)
    (header : MinimalHeader) (body : MinimalBody)
    (so : List Output) (cd : List Deposit) (rfnd : List Withdrawal)
    (hso : collectSome (body.inputs.map fun i => s.outputs i.outpoint) = some so)
    (hcd : collectSome (body.deposit_inputs.map fun i => M.get_deposit i.outpoint) = some cd)
    (hrw : collectSome (body.refund_inputs.map fun i => M.get_withdrawal i.outpoint) =
      some rfnd)
    (hsig : all_signatures_valid ctx body.inputs so body.deposit_inputs cd
        body.refund_inputs rfnd = true)
    (hhash : (body.transactions.map ctx.txHash).Nodup) :
    (s.validate_block M ctx header body = true ↔
      (specTotalCoinbase body + specTotalInput so cd rfnd) % U64MOD =
        specTotalOutput body % U64MOD) := by
  rw [validate_block_resolved s M ctx header body so cd rfnd hso hcd hrw, hsig, Bool.true_and,
    beq_iff_eq]
  unfold total_coinbase_amount total_output_amount total_input_amount
  rw [outputs_eq_outputsList _ _ _ hhash, outputsList_amounts]
  unfold specTotalCoinbase specTotalInput specTotalOutput wsub
  simp only [sumAmounts_eq, wadd]
  rw [List.map_append, List.sum_append]
  unfold U64MOD
  constructor <;> intro h <;> omega

/-- Witness for C1 (amended) at a concrete input: a block spending a 100-unit
output and recreating 100 units with zero coinbase. -/
theorem validate_conservation_mod_iff_witness :
    collectSome (spendBody.inputs.map fun i => dsState.outputs i.outpoint) =
        some [⟨100, 0⟩] ∧
      all_signatures_valid ctx0 spendBody.inputs [⟨100, 0⟩] spendBody.deposit_inputs []
        spendBody.refund_inputs [] = true ∧
      (spendBody.transactions.map ctx0.txHash).Nodup ∧
      (dsState.validate_block oracle0 ctx0 0 spendBody = true ↔
        (specTotalCoinbase spendBody + specTotalInput [⟨100, 0⟩] [] []) % U64MOD =
          specTotalOutput spendBody % U64MOD) :=
  ⟨by decide, by decide, by decide,
    validate_conservation_mod_iff dsState oracle0 ctx0 0 spendBody [⟨100, 0⟩] [] []
      (by decide) (by decide) (by decide) (by decide) (by decide)⟩

/-- C1 (counterexample): on `wrapBody` every reference resolves and every
signature verifies, yet `validate_block` returns `true` while the coinbase
total differs from the unbounded-integer total output minus total input, so
the claimed equivalence fails as stated. -/
theorem validate_conservation_unbounded_ce :
    collectSome (wrapBody.inputs.map fun i => wrapState.outputs i.outpoint) =
        some wrapSpent ∧
      collectSome (wrapBody.deposit_inputs.map fun i => oracle0.get_deposit i.outpoint) =
        some [] ∧
      collectSome (wrapBody.refund_inputs.map fun i => oracle0.get_withdrawal i.outpoint) =
        some [] ∧
      all_signatures_valid ctx0 wrapBody.inputs wrapSpent wrapBody.deposit_inputs []
        wrapBody.refund_inputs [] = true ∧
      ¬ (wrapState.validate_block oracle0 ctx0 0 wrapBody = true ↔
          (specTotalCoinbase wrapBody : Int) =
            (specTotalOutput wrapBody : Int) - (specTotalInput wrapSpent [] [] : Int)) := by
  decide
